import Mathlib

/-!
Verification of the execution core of the xeus-cling kernel
(`src/xinterpreter.cpp`), via a shallow embedding.

The embedding models:
* `interpreter::execute_request_impl` (preamble dispatch, the block loop with
  its three catch clauses, error replies, value publication);
* `interpreter::get_error_reply`;
* `interpreter::redirect_output` / `interpreter::restore_output`;
* the completion-candidate rewrites of `interpreter::complete_request_impl`;
* the cursor-context extraction of `interpreter::inspect_request_impl`.

The cling engine (`m_processor.process`, `cancelContinuation`, the value
printer) is an external collaborator; one invocation is modelled by
`ProcResult`, following the spec's external interface
`compileAndRun(fragment) -> (errorLevel, CompilationOutcome, optionalValue)`:
on a normal return the engine has stored the fragment's produced value (if
any) into the caller's value slot, clearing it otherwise (the metaprocessor
resets the out-parameter on entry); on a throw, the `thrown` fields record
whether (and what) the out-parameters were assigned before the fault, since
the catch clauses in `execute_request_impl` assign neither `errorlevel` nor
`compilation_result`.

Helper code of this repository that is not under `src/` (the `trim` and
`split_from_includes` helpers of `xparser.hpp`, and the preamble registry of
`xpreamble.hpp`/`xholder.hpp`) is modelled from the spec; each such
definition carries a `Modelled from the spec:` doc comment.
-/

namespace XeusCling

/-- Whitespace as classified by C++ `isspace`: space, tab, newline, carriage
return, vertical tab, form feed. -/
def isCppSpace (c : Char) : Bool :=
  c == ' ' || c == '\t' || c == '\n' || c == '\r' ||
  c == Char.ofNat 11 || c == Char.ofNat 12

/-- Leading and trailing whitespace removal on a character list. -/
def trimChars (l : List Char) : List Char :=
  ((l.dropWhile isCppSpace).reverse.dropWhile isCppSpace).reverse

/-- Modelled from the spec: the `trim` helper of `xparser.hpp` (not under
`src/`); removes leading and trailing whitespace from a string. -/
def trim (s : String) : String :=
  String.mk (trimChars s.toList)

/-- Split a character list into its newline-separated lines (the accumulator
holds the current line reversed). -/
def splitLinesAux : List Char → List Char → List String
  | acc, [] => [String.mk acc.reverse]
  | acc, '\n' :: rest => String.mk acc.reverse :: splitLinesAux [] rest
  | acc, c :: rest => splitLinesAux (c :: acc) rest

/-- Split a string into its newline-separated lines. -/
def splitLines (s : String) : List String :=
  splitLinesAux [] s.toList

/-- Join lines back with newlines. -/
def joinLines : List String → String
  | [] => ""
  | [l] => l
  | l :: rest => l ++ "\n" ++ joinLines rest

/-- A line holding an inclusion directive: after leading whitespace it starts
with `#include`. -/
def isIncludeLine (l : String) : Bool :=
  (l.toList.dropWhile isCppSpace).take 8 == "#include".toList

/-- Emit one fragment: trim it, and drop it when empty after trimming. -/
def emitPart (s : String) : List String :=
  if trim s = "" then [] else [trim s]

/-- Walk the lines of a submission, grouping maximal runs of non-directive
lines into one fragment and isolating each directive line as its own
fragment. -/
def groupGo : List String → List String → List String
  | acc, [] => emitPart (joinLines acc)
  | acc, l :: rest =>
    if isIncludeLine l then
      emitPart (joinLines acc) ++ emitPart l ++ groupGo [] rest
    else
      groupGo (acc ++ [l]) rest

/-- Modelled from the spec: `split_from_includes` of `xparser.hpp` (not under
`src/`). Decomposes one submission into independently compilable fragments:
each inclusion-directive line is isolated as its own fragment, maximal runs
of other lines are grouped into the enclosing fragment, every fragment is
trimmed, and fragments empty after trimming are dropped; an input with no
directives yields the whole trimmed submission as a single fragment. -/
def split_from_includes (code : String) : List String :=
  groupGo [] (splitLines code)

/-- `cling::Interpreter::CompilationResult`. -/
inductive CompilationResult
  | kSuccess
  | kFailure
  | kMoreInputExpected
  deriving DecidableEq, Repr

/-- A `cling::Value`, abstracted to the text its printer would produce
(the value-to-text printer is an engine facility). -/
structure CValue where
  text : String
  deriving DecidableEq, Repr

/-- The reply object (`xeus::xjson kernel_res`), restricted to the fields the
execution path writes: `status`, `ename`, `evalue`, `traceback`.  A `none`
field is one never assigned. -/
structure XJson where
  status : Option String
  ename : Option String
  evalue : Option String
  traceback : Option (List String)
  deriving DecidableEq, Repr

/-- The default-constructed reply. -/
def XJson.empty : XJson := ⟨none, none, none, none⟩

/-- `interpreter::get_error_reply` (xinterpreter.cpp:238-248). -/
def get_error_reply (ename evalue : String) (trace_back : List String) : XJson :=
  ⟨some "error", some ename, some evalue, some trace_back⟩

/-- A preamble handler: a pure match predicate and an apply action producing
a complete reply (spec §3). -/
structure Preamble where
  is_match : String → Bool
  apply : String → XJson

/-- Modelled from the spec: dispatch over the preamble registry
(`xpreamble.hpp`/`xholder.hpp`, not under `src/`): handlers are tested in
registration order and the first match wins (spec §4.2). -/
def findMatch : List (String × Preamble) → String → Option Preamble
  | [], _ => none
  | (_, p) :: rest, code =>
    if p.is_match code then some p else findMatch rest code

/-- The three fault classes caught around one engine invocation
(xinterpreter.cpp:107-123). -/
inductive ExnKind
  | interp (diagnosed : Bool) (msg : String)
  | stdExn (msg : String)
  | other
  deriving DecidableEq, Repr

/-- One invocation of `m_processor.process(block, compilation_result,
&output, true)`.  `ret` is a normal return (engine return value, value
written to the `compilation_result` out-parameter, value slot contents on
return).  `thrown` is a fault escaping `process`: `crWritten`/`valWritten`
record whether the out-parameters were assigned before the fault (`none`
means the caller's variable keeps its previous contents). -/
inductive ProcResult
  | ret (errorlevel : Int) (cr : CompilationResult) (value : Option CValue)
  | thrown (k : ExnKind) (crWritten : Option CompilationResult)
      (valWritten : Option (Option CValue))
  deriving DecidableEq, Repr

/-- Observable effects of one `execute_request_impl` run. -/
inductive Event
  | split (code : String)
  | procCall (block : String)
  | stderrMsg (s : String)
  | cancelContinuation
  | publishResult (counter : Int) (mime : String) (text : String)
  | flushCout
  deriving DecidableEq, Repr

/-- The stderr diagnostics a catch clause emits (xinterpreter.cpp:107-123):
a diagnosable interpreter exception reports through the engine itself, an
undiagnosable one and the two other classes print a fixed message. -/
def exnEvents : ExnKind → List Event
  | .interp true _ => []
  | .interp false msg =>
      [.stderrMsg ("Caught an interpreter exception!\n" ++ msg ++ "\n")]
  | .stdExn msg => [.stderrMsg ("Caught a std::exception!\n" ++ msg ++ "\n")]
  | .other => [.stderrMsg "Exception occurred. Recovering...\n"]

/-- Result of the block loop: an early `error` return, or fall-through with
the final contents of the value slot. -/
inductive RunOutcome
  | failed (events : List Event)
  | done (out : Option CValue) (events : List Event)
  deriving DecidableEq, Repr

/-- The block loop of `execute_request_impl` (xinterpreter.cpp:99-136).
`i` counts engine invocations, `cr` is the current contents of the
`compilation_result` variable (declared uninitialized at line 84), `out` the
current contents of the `output` value slot.  `errorlevel` is declared `= 0`
afresh each iteration; a throw leaves it `0` and leaves `cr`/`out` to
whatever the engine wrote before faulting.  A non-zero error level cancels
the continuation and returns the error reply; a non-success compilation
result returns the error reply without cancelling. -/
def runBlocks (eng : Nat → ProcResult) :
    Nat → CompilationResult → Option CValue → List String → RunOutcome
  | _, _, out, [] => .done out []
  | i, cr, out, b :: rest =>
    match eng i with
    | .ret el c v =>
      if el ≠ 0 then
        .failed [.procCall b, .cancelContinuation]
      else if c ≠ .kSuccess then
        .failed [.procCall b]
      else
        match runBlocks eng (i+1) c v rest with
        | .failed e2 => .failed (.procCall b :: e2)
        | .done o e2 => .done o (.procCall b :: e2)
    | .thrown k crW vW =>
      let cr' := crW.getD cr
      let out' := vW.getD out
      let evs := Event.procCall b :: exnEvents k
      if cr' ≠ .kSuccess then
        .failed evs
      else
        match runBlocks eng (i+1) cr' out' rest with
        | .failed e2 => .failed (evs ++ e2)
        | .done o e2 => .done o (evs ++ e2)

/-- The last character of a string; reading it on an empty string is
undefined behaviour in the source (`trim(blocks.back()).back()`), modelled by
an arbitrary `junk` character. -/
def cppBack (junk : Char) (s : String) : Char :=
  match s.toList.getLast? with
  | some c => c
  | none => junk

/-- `interpreter::execute_request_impl` (xinterpreter.cpp:77-154): preamble
dispatch first (first match wins, immediate return, no events); otherwise
split into blocks, run the loop, and on fall-through publish the trailing
expression's value when one is present and the trimmed final block does not
end in `';'`, then flush stdout and reply `ok`.  `initCR` is the
indeterminate initial contents of the uninitialized `compilation_result`
variable, `junk` the indeterminate result of the out-of-bounds `.back()`
read. -/
def execute_request (pres : List (String × Preamble)) (eng : Nat → ProcResult)
    (execution_counter : Int) (code : String)
    (initCR : CompilationResult) (junk : Char) : XJson × List Event :=
  match findMatch pres code with
  | some p => (p.apply code, [])
  | none =>
    let blocks := split_from_includes code
    match runBlocks eng 0 initCR none blocks with
    | .failed evs => (get_error_reply "ename" "evalue" [], .split code :: evs)
    | .done out evs =>
      let lastTrim := trim (blocks.getLast?.getD "")
      let pubEvs :=
        match out with
        | some v =>
          if cppBack junk lastTrim ≠ ';' then
            [Event.publishResult execution_counter "text/plain" v.text]
          else []
        | none => []
      (⟨some "ok", none, none, none⟩,
       .split code :: (evs ++ pubEvs ++ [.flushCout]))

/-! ## Output redirection (xinterpreter.cpp:250-263) -/

/-- A stream buffer target: either a pre-existing target of the process, or
one of the two publish-bound buffers (`m_cout_buffer`, `m_cerr_buffer`). -/
inductive StreamBuf
  | original (id : Nat)
  | xcoutBuffer
  | xcerrBuffer
  deriving DecidableEq, Repr

/-- The targets of the two standard streams (`std::cout.rdbuf()`,
`std::cerr.rdbuf()`); a target may be null. -/
structure IOStreams where
  coutBuf : Option StreamBuf
  cerrBuf : Option StreamBuf
  deriving DecidableEq, Repr

/-- The interpreter's saved targets (`p_cout_strbuf`, `p_cerr_strbuf`);
initialized to `nullptr` in the constructor. -/
structure RedirectState where
  p_cout_strbuf : Option StreamBuf
  p_cerr_strbuf : Option StreamBuf
  deriving DecidableEq, Repr

/-- `interpreter::redirect_output` (xinterpreter.cpp:250-257): save the
current stream targets, then substitute the two publish-bound buffers. -/
def redirect_output (io : IOStreams) (_st : RedirectState) :
    IOStreams × RedirectState :=
  (⟨some .xcoutBuffer, some .xcerrBuffer⟩, ⟨io.coutBuf, io.cerrBuf⟩)

/-- `interpreter::restore_output` (xinterpreter.cpp:259-263): reinstate the
saved targets. -/
def restore_output (_io : IOStreams) (st : RedirectState) : IOStreams :=
  ⟨st.p_cout_strbuf, st.p_cerr_strbuf⟩

/-! ## Completion-candidate rewrites (xinterpreter.cpp:171-182)

Each of the four `std::regex_replace` calls is embedded as a left-to-right
scanner replacing non-overlapping leftmost matches, with the greedy
(backtracking-free, since the character classes involved are disjoint)
semantics of the ECMAScript patterns.  Each scanner carries fuel equal to
the input length; every step consumes at least one character, so the fuel
never runs out. -/

/-- Regex `\w`: ASCII letters, digits, underscore. -/
def isWordChar (c : Char) : Bool :=
  c.isAlpha || c.isDigit || c == '_'

/-- For pattern `\[\#.*\#\]`, after an opening `[#` find the greedy (last)
closing `#]` reachable without crossing a newline (`.` excludes line
terminators); returns the remainder after that `#]`. -/
def lastHashClose : List Char → Option (List Char)
  | [] => none
  | '\n' :: _ => none
  | '#' :: ']' :: rest =>
    (match lastHashClose rest with
     | some r => some r
     | none => some rest)
  | _ :: rest => lastHashClose rest

/-- `r = std::regex_replace(r, std::regex("\[\#.*\#\]"), "")`: remove the
bracketed definition at the beginning of a candidate. -/
def removeDefsAux : Nat → List Char → List Char
  | 0, l => l
  | fuel+1, l =>
    match l with
    | [] => []
    | '[' :: '#' :: rest =>
      (match lastHashClose rest with
       | some r => removeDefsAux fuel r
       | none => '[' :: removeDefsAux fuel ('#' :: rest))
    | c :: rest => c :: removeDefsAux fuel rest

def removeDefs (l : List Char) : List Char := removeDefsAux l.length l

/-- A separator for pattern `(\ |\*)+`: space or `*`. -/
def isSepCh (c : Char) : Bool := c == ' ' || c == '*'

/-- `r = std::regex_replace(r, std::regex("(\ |\*)+(\w+)(\#\>)"), "$1$3")`:
remove the variable name in `<#type name#>`.  Group 1 is repeated, so `$1`
holds its last repetition: the final separator character. -/
def dropVarNamesAux : Nat → List Char → List Char
  | 0, l => l
  | _+1, [] => []
  | fuel+1, c :: rest =>
    if isSepCh c then
      let (seps, r1) := List.span isSepCh (c :: rest)
      let (words, r2) := List.span isWordChar r1
      match words, r2 with
      | _ :: _, '#' :: '>' :: r3 =>
        seps.getLast?.getD c :: '#' :: '>' :: dropVarNamesAux fuel r3
      | _, _ => c :: dropVarNamesAux fuel rest
    else c :: dropVarNamesAux fuel rest

def dropVarNames (l : List Char) : List Char := dropVarNamesAux l.length l

/-- `r = std::regex_replace(r, std::regex("\ *(\#\>)"), "$1")`: remove
spaces at the end of `<#type   #>`. -/
def dropSpacesBeforeCloseAux : Nat → List Char → List Char
  | 0, l => l
  | _+1, [] => []
  | fuel+1, c :: rest =>
    if c == ' ' then
      let (_, r1) := List.span (fun ch => ch == ' ') (c :: rest)
      match r1 with
      | '#' :: '>' :: r2 => '#' :: '>' :: dropSpacesBeforeCloseAux fuel r2
      | _ => c :: dropSpacesBeforeCloseAux fuel rest
    else if c == '#' then
      match rest with
      | '>' :: r2 => '#' :: '>' :: dropSpacesBeforeCloseAux fuel r2
      | _ => c :: dropSpacesBeforeCloseAux fuel rest
    else c :: dropSpacesBeforeCloseAux fuel rest

def dropSpacesBeforeClose (l : List Char) : List Char :=
  dropSpacesBeforeCloseAux l.length l

/-- `r = std::regex_replace(r, std::regex("\<\#([^#>]*)\#\>"), "$1")`:
remove a well-formed `<#`…`#>` pair, keeping only the type inside ([^#>]
admits neither `#` nor `>`). -/
def unwrapMarkersAux : Nat → List Char → List Char
  | 0, l => l
  | _+1, [] => []
  | fuel+1, '<' :: '#' :: rest =>
    (let (mid, r1) := List.span (fun ch => !(ch == '#' || ch == '>')) rest
     match r1 with
     | '#' :: '>' :: r2 => mid ++ unwrapMarkersAux fuel r2
     | _ => '<' :: unwrapMarkersAux fuel ('#' :: rest))
  | fuel+1, c :: rest => c :: unwrapMarkersAux fuel rest

def unwrapMarkers (l : List Char) : List Char := unwrapMarkersAux l.length l

/-- The full rewrite chain applied to one raw completion candidate
(xinterpreter.cpp:172-182), in source order. -/
def rewriteCandidate (s : String) : String :=
  String.mk (unwrapMarkers (dropSpacesBeforeClose (dropVarNames (removeDefs s.toList))))

/-- Adjacent-pair containment: `hasPair l a b` holds when `l` contains the
two-character sequence `a b` (used to test for residual `<#` / `#>` marker
tokens). -/
def hasPair : List Char → Char → Char → Bool
  | [], _, _ => false
  | [_], _, _ => false
  | x :: y :: r, a, b => (x == a && y == b) || hasPair (y :: r) a b

/-! ## Cursor-context extraction (xinterpreter.cpp:192-208) -/

/-- Conversion of a C++ `int` to `size_t` (two's-complement wrap-around). -/
def size_t_of_int (i : Int) : Nat :=
  (i % (2 ^ 64 : Int)).toNat

/-- `std::string::substr(pos, count)`: throws `std::out_of_range` when
`pos` exceeds the length; `count` is clamped to the remainder. -/
def cppSubstr (s : String) (pos count : Nat) : Except Unit String :=
  if s.toList.length < pos then .error ()
  else .ok (String.mk ((s.toList.drop pos).take count))

/-- Acceptance of a character list by the pattern
`(\w*(?:\:{2}|\<.*\>|\(.*\)|\[.*\])?\.?)*`, the body of `re_method`
(xinterpreter.cpp:200-201).  Mode `none` parses iterations of the starred
group; mode `some cl` is inside a bracketed group `\<.*\>` / `\(.*\)` /
`\[.*\]` scanning for the closing character `cl` (`.` excludes newlines;
all close positions are tried, matching the backtracking engine).  Fuel
equal to the input length suffices: every step consumes one character. -/
def acceptsAux : Nat → Option Char → List Char → Bool
  | _, none, [] => true
  | _, some _, [] => false
  | 0, _, _ :: _ => false
  | fuel+1, none, c :: rest =>
    if isWordChar c || c == '.' then acceptsAux fuel none rest
    else if c == ':' then
      match rest with
      | ':' :: r2 => acceptsAux fuel none r2
      | _ => false
    else if c == '<' then acceptsAux fuel (some '>') rest
    else if c == '(' then acceptsAux fuel (some ')') rest
    else if c == '[' then acceptsAux fuel (some ']') rest
    else false
  | fuel+1, some cl, c :: rest =>
    if c == '\n' then false
    else ((c == cl) && acceptsAux fuel none rest) || acceptsAux fuel (some cl) rest

def accepts (l : List Char) : Bool := acceptsAux l.length none l

/-- `std::regex_search` with the end-anchored pattern `(` … `)*$`: the
leftmost match is the longest suffix accepted by the starred body (the body
is nullable, so the empty suffix always matches at `$`). -/
def searchSuffix : List Char → Option (List Char)
  | [] => if accepts [] then some [] else none
  | c :: t => if accepts (c :: t) then some (c :: t) else searchSuffix t

/-- Leftmost match of `re_method` in a string, as a string. -/
def regexSearchTrailing (s : String) : Option String :=
  (searchSuffix s.toList).map String.mk

/-- The cursor-context extraction of `inspect_request_impl`
(xinterpreter.cpp:198-203): `auto dummy = code.substr(0, cursor_pos);`
followed by `std::regex_search(dummy, magic, re_method)`.  `cursor_pos` is
an `int` converted to `size_t` at the `substr` call.  The extraction is a
pure function of `(code, cursor_pos)`: it touches no execution state. -/
def inspect_context (code : String) (cursor_pos : Int) :
    Except Unit (Option String) :=
  match cppSubstr code 0 (size_t_of_int cursor_pos) with
  | .error e => .error e
  | .ok dummy => .ok (regexSearchTrailing dummy)

/-! ## Trace observations -/

/-- The fragments submitted to the engine, in order. -/
def procCalls : List Event → List String
  | [] => []
  | .procCall b :: rest => b :: procCalls rest
  | _ :: rest => procCalls rest

/-- The execution-result display messages published, in order. -/
def publishedResults : List Event → List (Int × String × String)
  | [] => []
  | .publishResult c m t :: rest => (c, m, t) :: publishedResults rest
  | _ :: rest => publishedResults rest

/-! ## Concrete fixtures used by witnesses and counterexamples -/

/-- An engine whose every invocation succeeds and yields the value `42`. -/
def engSuccessVal : Nat → ProcResult :=
  fun _ => .ret 0 .kSuccess (some ⟨"42"⟩)

/-- An engine whose every invocation returns error level 1. -/
def engErrLevel : Nat → ProcResult :=
  fun _ => .ret 1 .kSuccess none

/-- An engine whose every invocation returns error level 0 with a
non-success compilation result. -/
def engBadOutcome : Nat → ProcResult :=
  fun _ => .ret 0 .kFailure none

/-- An engine whose second invocation throws a `std::exception` without
assigning either out-parameter; all others succeed. -/
def engThrowMid : Nat → ProcResult
  | 0 => .ret 0 .kSuccess none
  | 1 => .thrown (.stdExn "boom") none none
  | _ => .ret 0 .kSuccess none

/-- A three-fragment submission: two inclusion directives around a
statement line. -/
def codeThreeFrags : String := "#include <a>\nf()\n#include <b>"

/-- A concrete preamble handler matching `%`-prefixed submissions. -/
def magicPre : Preamble :=
  ⟨fun s => s.toList.take 1 == ['%'], fun _ => ⟨some "ok", none, none, none⟩⟩

/-- A one-entry registry holding `magicPre`. -/
def presWit : List (String × Preamble) := [("magics", magicPre)]

/-! ## Lemmas: trimming and the splitter -/

theorem dropWhile_idem (p : Char → Bool) (l : List Char) :
    List.dropWhile p (List.dropWhile p l) = List.dropWhile p l := by
  induction l with
  | nil => simp
  | cons a l ih =>
    by_cases h : p a
    · simp [List.dropWhile_cons, h, ih]
    · simp [List.dropWhile_cons, h]

theorem exists_append_dropWhile (p : Char → Bool) (l : List Char) :
    ∃ s, s ++ List.dropWhile p l = l := by
  induction l with
  | nil => exact ⟨[], rfl⟩
  | cons a l ih =>
    by_cases h : p a
    · obtain ⟨s, hs⟩ := ih
      exact ⟨a :: s, by simp [List.dropWhile_cons, h, hs]⟩
    · exact ⟨[], by simp [List.dropWhile_cons, h]⟩

theorem head_dropWhile_false (p : Char → Bool) :
    ∀ (l : List Char) (a : Char) (t : List Char),
      List.dropWhile p l = a :: t → p a = false := by
  intro l
  induction l with
  | nil => intro a t h; simp at h
  | cons b l ih =>
    intro a t h
    by_cases hb : p b
    · rw [List.dropWhile_cons] at h
      simp only [hb, if_true] at h
      exact ih a t h
    · rw [List.dropWhile_cons] at h
      simp only [hb, if_false] at h
      obtain ⟨rfl, -⟩ := List.cons.inj h
      simpa using hb

theorem trimChars_idem (l : List Char) : trimChars (trimChars l) = trimChars l := by
  unfold trimChars
  set p := isCppSpace with hp
  set l1 := List.dropWhile p l with hl1
  set d := List.dropWhile p l1.reverse with hd
  -- step A: the leading dropWhile leaves d.reverse unchanged
  have hA : List.dropWhile p d.reverse = d.reverse := by
    cases hr : d.reverse with
    | nil => simp
    | cons a t =>
      obtain ⟨s, hs⟩ := exists_append_dropWhile p l1.reverse
      have hsplit : d.reverse ++ s.reverse = l1 := by
        have := congrArg List.reverse hs
        simpa [hd] using this
      have hl1eq : l1 = a :: (t ++ s.reverse) := by
        rw [← hsplit, hr]; simp
      have ha : p a = false :=
        head_dropWhile_false p l (a) (t ++ s.reverse) (by rw [← hl1, ← hl1eq])
      simp [List.dropWhile_cons, ha]
  rw [hA]
  -- step B: the trailing dropWhile is idempotent
  simp only [List.reverse_reverse]
  rw [hd, dropWhile_idem]

theorem trim_idem (s : String) : trim (trim s) = trim s :=
  congrArg String.mk (trimChars_idem s.toList)

theorem mem_emitPart (s f : String) (hf : f ∈ emitPart s) :
    f = trim s ∧ trim s ≠ "" := by
  unfold emitPart at hf
  by_cases h : trim s = ""
  · simp [h] at hf
  · simp [h] at hf
    exact ⟨hf, h⟩

theorem mem_groupGo :
    ∀ (lines acc : List String) (f : String),
      f ∈ groupGo acc lines → trim f = f ∧ f ≠ "" := by
  intro lines
  induction lines with
  | nil =>
    intro acc f hf
    simp only [groupGo] at hf
    obtain ⟨rfl, hne⟩ := mem_emitPart _ _ hf
    exact ⟨trim_idem _, hne⟩
  | cons l rest ih =>
    intro acc f hf
    simp only [groupGo] at hf
    by_cases hl : isIncludeLine l
    · simp only [hl, if_true, List.mem_append] at hf
      rcases hf with (hf | hf) | hf
      · obtain ⟨rfl, hne⟩ := mem_emitPart _ _ hf
        exact ⟨trim_idem _, hne⟩
      · obtain ⟨rfl, hne⟩ := mem_emitPart _ _ hf
        exact ⟨trim_idem _, hne⟩
      · exact ih [] f hf
    · simp only [hl, if_false] at hf
      exact ih (acc ++ [l]) f hf

theorem mem_split_from_includes (code f : String)
    (hf : f ∈ split_from_includes code) : trim f = f ∧ f ≠ "" :=
  mem_groupGo _ _ _ hf

/-! ## Lemmas: dispatch and the block loop -/

theorem findMatch_first :
    ∀ (pres : List (String × Preamble)) (code : String) (i : Nat)
      (hi : i < pres.length),
      (pres.get ⟨i, hi⟩).2.is_match code = true →
      (∀ j (hj : j < i), (pres.get ⟨j, Nat.lt_trans hj hi⟩).2.is_match code = false) →
      findMatch pres code = some (pres.get ⟨i, hi⟩).2 := by
  intro pres
  induction pres with
  | nil => intro code i hi; exact absurd hi (by simp)
  | cons hd tl ih =>
    intro code i hi hm hf
    obtain ⟨name, p⟩ := hd
    cases i with
    | zero =>
      simp only [List.get] at hm ⊢
      simp [findMatch, hm]
    | succ n =>
      have h0 : p.is_match code = false := hf 0 (Nat.succ_pos n)
      simp only [List.get] at hm h0 ⊢
      simp only [findMatch, h0, Bool.false_eq_true, if_false]
      exact ih code n (Nat.lt_of_succ_lt_succ hi) hm
        (fun j hj => hf (j+1) (Nat.succ_lt_succ hj))

theorem runBlocks_all_ok (eng : Nat → ProcResult) (v : Nat → Option CValue) :
    ∀ (blocks : List String) (i : Nat) (cr : CompilationResult)
      (out : Option CValue),
      (∀ j, j < blocks.length → eng (i + j) = .ret 0 .kSuccess (v (i + j))) →
      runBlocks eng i cr out blocks =
        .done (if blocks.length = 0 then out else v (i + blocks.length - 1))
          (blocks.map Event.procCall) := by
  intro blocks
  induction blocks with
  | nil => intro i cr out _; simp [runBlocks]
  | cons b rest ih =>
    intro i cr out h
    have h0 : eng i = .ret 0 .kSuccess (v i) := by
      have := h 0 (by simp)
      simpa using this
    have hrec := ih (i+1) .kSuccess (v i)
      (fun j hj => by
        have := h (j+1) (by simpa using Nat.succ_lt_succ hj)
        rwa [show i + (j+1) = i + 1 + j by omega] at this)
    simp only [runBlocks, h0, ne_eq, not_true_eq_false, if_false, hrec,
      reduceIte]
    by_cases hr : rest.length = 0
    · simp [hr]
    · simp only [hr, if_false, List.length_cons, List.map_cons,
        Nat.add_eq_zero, and_false, if_false]
      rw [show i + 1 + rest.length - 1 = i + (rest.length + 1) - 1 by omega]
      simp

theorem runBlocks_fail (eng : Nat → ProcResult) (v : Nat → Option CValue) :
    ∀ (blocks : List String) (k i : Nat) (cr : CompilationResult)
      (out : Option CValue) (el : Int) (c : CompilationResult)
      (vk : Option CValue),
      k < blocks.length →
      (∀ j, j < k → eng (i + j) = .ret 0 .kSuccess (v (i + j))) →
      eng (i + k) = .ret el c vk →
      (el ≠ 0 ∨ c ≠ .kSuccess) →
      runBlocks eng i cr out blocks =
        .failed ((blocks.take (k+1)).map Event.procCall ++
          (if el = 0 then [] else [Event.cancelContinuation])) := by
  intro blocks
  induction blocks with
  | nil => intro k i cr out el c vk hk; simp at hk
  | cons b rest ih =>
    intro k i cr out el c vk hk hpre hfail hbad
    cases k with
    | zero =>
      rw [Nat.add_zero] at hfail
      by_cases he : el = 0
      · have hc : c ≠ .kSuccess := by
          rcases hbad with h | h
          · exact absurd he h
          · exact h
        simp [runBlocks, hfail, he, hc]
      · simp [runBlocks, hfail, he]
    | succ n =>
      have h0 : eng i = .ret 0 .kSuccess (v i) := by
        have := hpre 0 (Nat.succ_pos n)
        simpa using this
      have hrec := ih n (i+1) .kSuccess (v i) el c vk
        (by simpa using Nat.lt_of_succ_lt_succ hk)
        (fun j hj => by
          have := hpre (j+1) (Nat.succ_lt_succ hj)
          rwa [show i + (j+1) = i + 1 + j by omega] at this)
        (by rwa [show i + 1 + n = i + (n+1) by omega])
        hbad
      simp only [runBlocks, h0, ne_eq, not_true_eq_false, if_false, hrec,
        reduceIte]
      simp [List.take_succ_cons]

/-! ## Lemmas: trace observations -/

theorem procCalls_append (l1 l2 : List Event) :
    procCalls (l1 ++ l2) = procCalls l1 ++ procCalls l2 := by
  induction l1 with
  | nil => simp [procCalls]
  | cons e rest ih => cases e <;> simp [procCalls, ih]

theorem procCalls_map (bs : List String) :
    procCalls (bs.map Event.procCall) = bs := by
  induction bs with
  | nil => simp [procCalls]
  | cons b rest ih => simp [procCalls, ih]

theorem publishedResults_append (l1 l2 : List Event) :
    publishedResults (l1 ++ l2) = publishedResults l1 ++ publishedResults l2 := by
  induction l1 with
  | nil => simp [publishedResults]
  | cons e rest ih => cases e <;> simp [publishedResults, ih]

theorem publishedResults_map_procCall (bs : List String) :
    publishedResults (bs.map Event.procCall) = [] := by
  induction bs with
  | nil => simp [publishedResults]
  | cons b rest ih => simp [publishedResults, ih]

theorem cancel_not_mem_map_procCall (bs : List String) :
    Event.cancelContinuation ∉ bs.map Event.procCall := by
  simp [List.mem_map]

theorem procCalls_map_take (n : Nat) (bs : List String) :
    procCalls (List.take n (bs.map Event.procCall)) = bs.take n := by
  rw [← List.map_take, procCalls_map]

theorem cancel_not_mem_take_map (n : Nat) (bs : List String) :
    Event.cancelContinuation ∉ List.take n (bs.map Event.procCall) :=
  fun hmem => cancel_not_mem_map_procCall bs (List.take_subset _ _ hmem)

theorem searchSuffix_exists (l : List Char) : ∃ t, searchSuffix l = some t := by
  induction l with
  | nil => exact ⟨[], rfl⟩
  | cons c t ih =>
    by_cases h : accepts (c :: t)
    · exact ⟨c :: t, by simp [searchSuffix, h]⟩
    · obtain ⟨r, hr⟩ := ih
      exact ⟨r, by simp [searchSuffix, h, hr]⟩

/-! ## The claims -/

/-- C1: for every submission matched by some registered preamble,
`execute_request` returns exactly the result applied by the first matching
preamble (handlers tested in registration order, first match wins), with an
empty event trace — so the block splitter is never invoked, the engine's
compile-and-run operation is never invoked, and no execution-result message
is published for that submission (xinterpreter.cpp:87-94). -/
theorem preamble_short_circuit
    (pres : List (String × Preamble)) (eng : Nat → ProcResult)
    (counter : Int) (code : String) (initCR : CompilationResult) (junk : Char)
    (i : Nat) (hi : i < pres.length)
    (hmatch : (pres.get ⟨i, hi⟩).2.is_match code = true)
    (hfirst : ∀ j (hj : j < i),
      (pres.get ⟨j, Nat.lt_trans hj hi⟩).2.is_match code = false) :
    execute_request pres eng counter code initCR junk =
      ((pres.get ⟨i, hi⟩).2.apply code, []) := by
  unfold execute_request
  rw [findMatch_first pres code i hi hmatch hfirst]

/-- C1 witness: the concrete registry `presWit` matches `"%file"` at index 0
and `execute_request` short-circuits to its applied result with no events. -/
theorem preamble_short_circuit_witness :
    execute_request presWit engSuccessVal 3 "%file" .kSuccess 'j' =
      (magicPre.apply "%file", []) :=
  preamble_short_circuit presWit engSuccessVal 3 "%file" .kSuccess 'j' 0
    (by decide) (by decide) (fun j hj => absurd hj (Nat.not_lt_zero j))

/-- C2: for every submission not handled by a preamble, if the engine
invocation on fragment `k` returns a non-zero error level or a non-success
compilation outcome (all earlier fragments succeeding), `execute_request`
returns a reply with status `"error"` and the engine is invoked on exactly
the fragments up to and including `k` — none after the failing one
(xinterpreter.cpp:99-136). -/
theorem error_aborts_remaining_fragments
    (pres : List (String × Preamble)) (eng : Nat → ProcResult)
    (counter : Int) (code : String) (initCR : CompilationResult) (junk : Char)
    (v : Nat → Option CValue) (k : Nat) (el : Int) (c : CompilationResult)
    (vk : Option CValue)
    (hnp : findMatch pres code = none)
    (hk : k < (split_from_includes code).length)
    (hpre : ∀ j, j < k → eng j = .ret 0 .kSuccess (v j))
    (hfail : eng k = .ret el c vk)
    (hbad : el ≠ 0 ∨ c ≠ .kSuccess) :
    (execute_request pres eng counter code initCR junk).1.status = some "error" ∧
    procCalls (execute_request pres eng counter code initCR junk).2 =
      (split_from_includes code).take (k+1) := by
  have hrb := runBlocks_fail eng v (split_from_includes code) k 0 initCR none
    el c vk hk (fun j hj => by simpa using hpre j hj) (by simpa using hfail) hbad
  simp only [execute_request, hnp, hrb]
  refine ⟨rfl, ?_⟩
  by_cases he : el = 0 <;>
    simp [he, procCalls, procCalls_append, procCalls_map, procCalls_map_take]

/-- C2 witness: a one-fragment submission whose single invocation returns
error level 1 yields an error reply with exactly that fragment attempted. -/
theorem error_aborts_remaining_fragments_witness :
    (execute_request [] engErrLevel 0 "a" .kSuccess 'j').1.status = some "error" ∧
    procCalls (execute_request [] engErrLevel 0 "a" .kSuccess 'j').2 =
      (split_from_includes "a").take (0+1) :=
  error_aborts_remaining_fragments [] engErrLevel 0 "a" .kSuccess 'j'
    (fun _ => none) 0 1 .kSuccess none rfl (by decide)
    (fun j hj => absurd hj (Nat.not_lt_zero j)) rfl (Or.inl (by decide))

/-- C3 (code-bug evidence): the catch clauses of `execute_request_impl`
assign neither `errorlevel` nor `compilation_result`, so when the engine
invocation on the middle fragment throws a `std::exception` without writing
its out-parameters, the stale success value from the previous fragment lets
the loop continue: the fragment after the fault is still submitted to the
engine and the reply ends `"ok"`, contradicting the documented behaviour
that a caught fault aborts the submission (xinterpreter.cpp:102-136). -/
theorem exception_continues_to_next_fragment :
    execute_request [] engThrowMid 1 codeThreeFrags .kFailure 'j' =
      (⟨some "ok", none, none, none⟩,
       [.split codeThreeFrags, .procCall "#include <a>", .procCall "f()",
        .stderrMsg "Caught a std::exception!\nboom\n",
        .procCall "#include <b>", .flushCout]) := by
  decide

/-- C4 counterexample: an invocation returning error level 0 with a
non-success compilation outcome makes `execute_request` return the error
reply with no `cancelContinuation` event in the trace — the two error
classes are not treated identically with respect to continuation
cancellation (xinterpreter.cpp:125-135). -/
theorem nonsuccess_outcome_no_cancel :
    (execute_request [] engBadOutcome 0 "x" .kSuccess 'j').1.status = some "error" ∧
    Event.cancelContinuation ∉ (execute_request [] engBadOutcome 0 "x" .kSuccess 'j').2 := by
  decide

/-- C4 amended: on the first failing fragment the reply is `"error"`, and
`cancelContinuation` is invoked if and only if the reported error level is
non-zero; a non-success compilation outcome with error level 0 returns the
error reply without cancelling (xinterpreter.cpp:125-135). -/
theorem cancel_only_on_nonzero_errorlevel
    (pres : List (String × Preamble)) (eng : Nat → ProcResult)
    (counter : Int) (code : String) (initCR : CompilationResult) (junk : Char)
    (v : Nat → Option CValue) (k : Nat) (el : Int) (c : CompilationResult)
    (vk : Option CValue)
    (hnp : findMatch pres code = none)
    (hk : k < (split_from_includes code).length)
    (hpre : ∀ j, j < k → eng j = .ret 0 .kSuccess (v j))
    (hfail : eng k = .ret el c vk)
    (hbad : el ≠ 0 ∨ c ≠ .kSuccess) :
    (execute_request pres eng counter code initCR junk).1.status = some "error" ∧
    (Event.cancelContinuation ∈ (execute_request pres eng counter code initCR junk).2 ↔
      el ≠ 0) := by
  have hrb := runBlocks_fail eng v (split_from_includes code) k 0 initCR none
    el c vk hk (fun j hj => by simpa using hpre j hj) (by simpa using hfail) hbad
  simp only [execute_request, hnp, hrb]
  refine ⟨rfl, ?_⟩
  by_cases he : el = 0
  · simp [he, List.mem_append, cancel_not_mem_map_procCall, cancel_not_mem_take_map]
  · simp [he, List.mem_append]

/-- C4 amended witness: with error level 1 on the first fragment, the error
reply is produced and the continuation is cancelled. -/
theorem cancel_only_on_nonzero_errorlevel_witness :
    (execute_request [] engErrLevel 2 "y" .kSuccess 'j').1.status = some "error" ∧
    (Event.cancelContinuation ∈ (execute_request [] engErrLevel 2 "y" .kSuccess 'j').2 ↔
      (1 : Int) ≠ 0) :=
  cancel_only_on_nonzero_errorlevel [] engErrLevel 2 "y" .kSuccess 'j'
    (fun _ => none) 0 1 .kSuccess none rfl (by decide)
    (fun j hj => absurd hj (Nat.not_lt_zero j)) rfl (Or.inl (by decide))

/-- C5: for every submission (not preamble-handled) whose fragments all
succeed, the reply status is `"ok"` and the published execution-result
messages are: exactly one — tagged with the submission's counter, under the
`"text/plain"` MIME type, carrying the text of the value produced by the
final fragment's invocation — when that final invocation produced a value
and the trimmed final fragment does not end in `';'`; and none when the
final invocation produced no value or the trimmed final fragment ends in
`';'` (xinterpreter.cpp:96-149). -/
theorem final_value_publication
    (pres : List (String × Preamble)) (eng : Nat → ProcResult)
    (counter : Int) (code : String) (initCR : CompilationResult) (junk : Char)
    (v : Nat → Option CValue)
    (hnp : findMatch pres code = none)
    (hne : split_from_includes code ≠ [])
    (hok : ∀ j, j < (split_from_includes code).length →
      eng j = .ret 0 .kSuccess (v j)) :
    (execute_request pres eng counter code initCR junk).1.status = some "ok" ∧
    publishedResults (execute_request pres eng counter code initCR junk).2 =
      (match v ((split_from_includes code).length - 1) with
       | some val =>
         if cppBack junk (trim ((split_from_includes code).getLast?.getD "")) = ';'
         then []
         else [(counter, "text/plain", val.text)]
       | none => []) := by
  have hrb := runBlocks_all_ok eng v (split_from_includes code) 0 initCR none
    (fun j hj => by simpa using hok j hj)
  have hlen : ¬ (split_from_includes code).length = 0 := by
    simpa [List.length_eq_zero] using hne
  simp only [execute_request, hnp, hrb, hlen, if_false, Nat.zero_add]
  cases hv : v ((split_from_includes code).length - 1) with
  | none =>
    refine ⟨trivial, ?_⟩
    simp [publishedResults, publishedResults_append, publishedResults_map_procCall]
  | some val =>
    refine ⟨trivial, ?_⟩
    by_cases hc : cppBack junk (trim ((split_from_includes code).getLast?.getD "")) = ';' <;>
      simp [hc, publishedResults, publishedResults_append, publishedResults_map_procCall]

/-- C5 witness: the one-fragment submission `"x+1"` with an engine producing
the value `42` publishes exactly one `"text/plain"` result tagged with
counter 5. -/
theorem final_value_publication_witness :
    (execute_request [] engSuccessVal 5 "x+1" .kSuccess 'j').1.status = some "ok" ∧
    publishedResults (execute_request [] engSuccessVal 5 "x+1" .kSuccess 'j').2 =
      [(5, "text/plain", "42")] := by
  simpa using final_value_publication [] engSuccessVal 5 "x+1" .kSuccess 'j'
    (fun _ => some ⟨"42"⟩) rfl (by decide) (fun _ _ => rfl)

/-- C6: for every submission that is not handled by a preamble, if
`execute_request` returns status `"error"` then the reply is exactly
`get_error_reply "ename" "evalue" []`: error-name `"ename"`, error-value
`"evalue"`, empty traceback, regardless of the actual diagnostic
(xinterpreter.cpp:125-135, 238-248). -/
theorem error_reply_placeholder_fields
    (pres : List (String × Preamble)) (eng : Nat → ProcResult)
    (counter : Int) (code : String) (initCR : CompilationResult) (junk : Char)
    (hnp : findMatch pres code = none)
    (herr : (execute_request pres eng counter code initCR junk).1.status =
      some "error") :
    (execute_request pres eng counter code initCR junk).1 =
      get_error_reply "ename" "evalue" [] := by
  simp only [execute_request, hnp] at herr ⊢
  cases hrb : runBlocks eng 0 initCR none (split_from_includes code) with
  | failed evs => simp [hrb]
  | done out evs =>
    rw [hrb] at herr
    simp at herr

/-- C6 witness: a failing compilation outcome yields exactly the placeholder
error reply. -/
theorem error_reply_placeholder_fields_witness :
    (execute_request [] engBadOutcome 4 "z" .kSuccess 'j').1 =
      get_error_reply "ename" "evalue" [] :=
  error_reply_placeholder_fields [] engBadOutcome 4 "z" .kSuccess 'j'
    rfl (by decide)

/-- C7: redirect/restore round-trip — for every initial pair of stream
targets, `redirect_output` saves the current targets and substitutes the
two publish-bound buffers, and a subsequent `restore_output` leaves both
standard streams' targets equal to their pre-install values
(xinterpreter.cpp:250-263). -/
theorem redirect_restore_roundtrip (io : IOStreams) (st : RedirectState) :
    restore_output (redirect_output io st).1 (redirect_output io st).2 = io := by
  cases io
  rfl

/-- C8 counterexample: applying the completion adapter's fixed rewrite
sequence to the raw candidate `"foo(<#int#> x<#>#)"` leaves both a `<#` and
a `#>` marker token in the display string — the malformed trailing
`<#>#` sequence is not removed (xinterpreter.cpp:171-182). -/
theorem rewrite_leaves_marker :
    hasPair (rewriteCandidate "foo(<#int#> x<#>#)").toList '<' '#' = true ∧
    hasPair (rewriteCandidate "foo(<#int#> x<#>#)").toList '#' '>' = true := by
  decide

/-- C8 amended: the rewrite sequence maps `"foo(<#int#> x<#>#)"` to
`"foo(int x<#>#)"` — the well-formed `<#int#>` group is reduced to its
content, but the malformed trailing `<#>#` sequence survives with residual
`<#`/`#>` tokens (markers are fully removed only from well-formed
`<#`…`#>` groups whose content contains neither `#` nor `>`). -/
theorem rewrite_concrete_result :
    rewriteCandidate "foo(<#int#> x<#>#)" = "foo(int x<#>#)" := by
  decide

/-- C9: the cursor-context extraction of `inspect_request_impl` is total:
for every code string and every cursor offset (the `int` offset converted
to `size_t` at the `substr(0, cursor_pos)` call, where it is the clamped
*count*, so no out-of-range fault is possible), the extraction returns a
match without error — the end-anchored pattern is nullable, so even
malformed input yields the empty match rather than a failure; the
extraction is a pure function of its two arguments and touches no
execution state (xinterpreter.cpp:192-208). -/
theorem inspect_context_total :
    (∀ (code : String) (cursor_pos : Int),
      ∃ m, inspect_context code cursor_pos = .ok (some m)) ∧
    inspect_context "a +" 3 = .ok (some "") := by
  constructor
  · intro code pos
    have hsub : cppSubstr code 0 (size_t_of_int pos) =
        .ok (String.mk (List.take (size_t_of_int pos) code.data)) := by
      unfold cppSubstr
      rw [if_neg (by omega)]
      rfl
    obtain ⟨t, ht⟩ := searchSuffix_exists (List.take (size_t_of_int pos) code.data)
    refine ⟨String.mk t, ?_⟩
    unfold inspect_context
    simp only [hsub]
    simp only [regexSearchTrailing]
    rw [show (String.mk (List.take (size_t_of_int pos) code.data)).toList
        = List.take (size_t_of_int pos) code.data from rfl]
    rw [ht]
    rfl
  · rfl

/-- C10: whenever the block loop falls through to the value-publication
check with a produced value present, the trimmed final fragment is a
non-empty string (every fragment the splitter emits is trimmed and
non-empty, and a value can only be present when at least one fragment was
run), so the unguarded `trim(blocks.back()).back()` read at
xinterpreter.cpp:138 is well-defined. -/
theorem value_implies_last_fragment_nonblank
    (eng : Nat → ProcResult) (code : String) (i : Nat)
    (cr : CompilationResult) (val : CValue) (evs : List Event)
    (h : runBlocks eng i cr none (split_from_includes code) =
      .done (some val) evs) :
    trim ((split_from_includes code).getLast?.getD "") ≠ "" := by
  cases hb : split_from_includes code with
  | nil =>
    rw [hb] at h
    simp [runBlocks] at h
  | cons b rest =>
    have hcne : (b :: rest) ≠ ([] : List String) := by simp
    have hsome : (b :: rest).getLast? = some ((b :: rest).getLast hcne) :=
      List.getLast?_eq_getLast _ hcne
    have hmem : (b :: rest).getLast hcne ∈ b :: rest := List.getLast_mem hcne
    have hprop := mem_split_from_includes code _ (by rw [hb]; exact hmem)
    rw [hsome]
    show trim ((b :: rest).getLast hcne) ≠ ""
    rw [hprop.1]
    exact hprop.2

/-- C10 witness: a successful one-fragment run producing a value, whose
trimmed final fragment `"x+1"` is non-empty. -/
theorem value_implies_last_fragment_nonblank_witness :
    runBlocks engSuccessVal 0 .kSuccess none (split_from_includes "x+1") =
      .done (some ⟨"42"⟩) [.procCall "x+1"] ∧
    trim ((split_from_includes "x+1").getLast?.getD "") ≠ "" :=
  ⟨by decide,
   value_implies_last_fragment_nonblank engSuccessVal "x+1" 0 .kSuccess
     ⟨"42"⟩ [.procCall "x+1"] (by decide)⟩

end XeusCling
